import Mathlib

/-!
Formal verification of the retrieval-augmented legal reasoning pipeline of the
dadyar repository.  Python text values are modelled as `String` / `List Char`,
Python floats as `ℚ` (every constant in the pipeline is an exact decimal),
fallible provider calls as `Option`-valued oracles, and the response of the
external language-generation provider as an explicit oracle argument.
-/

/-! ## String helpers shared by several modules -/

/-- Python `str.lower()`.  `Char.toLower` maps the ASCII range exactly as
Python does; the Persian marker and header strings used throughout the
pipeline contain no cased characters, so they are fixed points of both. -/
def pyLower (l : List Char) : List Char := l.map Char.toLower

/-- Python substring test `needle in hay` on already-lowered text. -/
def containsSub (hay : List Char) (needle : String) : Bool :=
  decide (needle.data <:+: hay)

/-! ## `ReasoningEngine._extract_confidence` (reasoning_engine.py lines 237-269) -/

/-- High confidence keywords (source line 253). -/
def high_keywords : List String := ["قطعاً", "حتماً", "بدون شک", "کاملاً"]

/-- Good confidence keywords (source line 257). -/
def good_keywords : List String := ["احتمالاً", "به نظر می‌رسد", "مرتبط است"]

/-- Medium confidence keywords (source line 261). -/
def medium_keywords : List String := ["ممکن است", "شاید", "می‌تواند"]

/-- Low confidence keywords (source line 265). -/
def low_keywords : List String := ["نامحتمل", "بعید", "کمتر مرتبط"]

/-- `any(kw in text_lower for kw in kws)` for a lowered text. -/
def hasMarker (text : String) (kws : List String) : Bool :=
  kws.any (fun kw => containsSub (pyLower text.data) kw)

/-- Embeds `ReasoningEngine._extract_confidence`: keyword-priority
classification of an analysis text into a confidence score. -/
def extract_confidence (text : String) : ℚ :=
  if hasMarker text high_keywords then 95/100
  else if hasMarker text good_keywords then 80/100
  else if hasMarker text medium_keywords then 60/100
  else if hasMarker text low_keywords then 30/100
  else 70/100

/-- Embeds the applicability test of
`ReasoningEngine._analyze_article_applicability` (line 234):
`is_applicable = confidence > 0.6`. -/
def is_applicable (analysis_text : String) : Prop :=
  extract_confidence analysis_text > 6/10

instance (t : String) : Decidable (is_applicable t) := by
  unfold is_applicable; infer_instance

/-- C2: the extracted confidence is decided by the first matching marker class
in priority order (strong 0.95, then moderate 0.80, then hedging 0.60, then
low-likelihood 0.30, default 0.70), and a provision is applicable iff the
extracted confidence exceeds 0.6. -/
theorem extract_confidence_priority (text : String) :
    (hasMarker text high_keywords = true → extract_confidence text = 95/100) ∧
    (hasMarker text high_keywords = false →
      hasMarker text good_keywords = true → extract_confidence text = 80/100) ∧
    (hasMarker text high_keywords = false → hasMarker text good_keywords = false →
      hasMarker text medium_keywords = true → extract_confidence text = 60/100) ∧
    (hasMarker text high_keywords = false → hasMarker text good_keywords = false →
      hasMarker text medium_keywords = false →
      hasMarker text low_keywords = true → extract_confidence text = 30/100) ∧
    (hasMarker text high_keywords = false → hasMarker text good_keywords = false →
      hasMarker text medium_keywords = false →
      hasMarker text low_keywords = false → extract_confidence text = 70/100) ∧
    (is_applicable text ↔ extract_confidence text > 6/10) := by
  unfold extract_confidence is_applicable
  refine ⟨?_, ?_, ?_, ?_, ?_, Iff.rfl⟩ <;> intros <;> simp_all

/-- C2 witness: a text carrying both a strong marker and a moderate marker is
scored 0.95 (the earlier class wins) and is applicable; a marker-free text is
scored 0.70 and is applicable. -/
theorem extract_confidence_priority_witness :
    extract_confidence "قطعاً مرتبط است" = 95/100 ∧
    is_applicable "قطعاً مرتبط است" ∧
    extract_confidence "متن ساده" = 70/100 ∧
    is_applicable "متن ساده" := by
  refine ⟨(extract_confidence_priority "قطعاً مرتبط است").1 (by decide), ?_, ?_, ?_⟩
  · rw [(extract_confidence_priority "قطعاً مرتبط است").2.2.2.2.2]
    rw [(extract_confidence_priority "قطعاً مرتبط است").1 (by decide)]
    norm_num
  · exact (extract_confidence_priority "متن ساده").2.2.2.2.1
      (by decide) (by decide) (by decide) (by decide)
  · rw [(extract_confidence_priority "متن ساده").2.2.2.2.2]
    rw [(extract_confidence_priority "متن ساده").2.2.2.2.1
      (by decide) (by decide) (by decide) (by decide)]
    norm_num

/-! ## Data model (reasoning_engine.py, entity_extractor.py, knowledge_base.py) -/

/-- Extracted-fact record `CaseEntities` (the fields read by the pipeline). -/
structure CaseEntities where
  plaintiff : Option String
  defendant : Option String
  key_facts : List String
deriving Repr, DecidableEq

/-- One statutory provision of the corpus file (`legal_articles.json`). -/
structure Article where
  article_number : Int
  title : String
  text : String
  keywords : List String
  interpretation_notes : String
  related_articles : List Int
deriving Repr, DecidableEq, Inhabited

/-- One step of the reasoning chain (`ReasoningStep`). -/
structure ReasoningStep where
  step_type : String
  content : String
  confidence : ℚ
  related_article : Option Int
deriving Repr, DecidableEq

/-- Aggregate result of an analysis run (`ReasoningResult`). -/
structure ReasoningResult where
  case_id : String
  entities : CaseEntities
  retrieved_articles : List Article
  reasoning_steps : List ReasoningStep
  deductions : List String
  overall_confidence : ℚ
deriving Repr, DecidableEq

/-- Per-article analysis record built by
`ReasoningEngine._analyze_article_applicability`. -/
structure ArticleAnalysis where
  article_number : Int
  analysis_text : String
  confidence : ℚ
deriving Repr, DecidableEq

/-! ## Deduction parsing (`ReasoningEngine._generate_deductions`, lines 313-325) -/

/-- Python whitespace stripped by `str.strip()` (ASCII subset; the pipeline's
texts contain no exotic Unicode space characters). -/
def pyIsSpace (c : Char) : Bool :=
  c == ' ' || c == '\t' || c == '\n' || c == '\r' || c == '\x0b' || c == '\x0c'

/-- Python `str.strip()`. -/
def pystrip (l : List Char) : List Char :=
  ((l.dropWhile pyIsSpace).reverse.dropWhile pyIsSpace).reverse

/-- Python `str.isdigit()` on one character, for the digits the pipeline can
meet (ASCII, Persian, Arabic-Indic). -/
def pyIsDigit (c : Char) : Bool :=
  c.isDigit || ('۰' ≤ c && c ≤ '۹') || ('٠' ≤ c && c ≤ '٩')

/-- Python `text.split('\x5cn')`: split into lines at newline characters. -/
def splitLines : List Char → List (List Char)
  | [] => [[]]
  | c :: cs =>
    if c = '\n' then [] :: splitLines cs
    else
      match splitLines cs with
      | [] => [[c]]
      | l :: ls => (c :: l) :: ls

/-- The character set of `line.lstrip('0123456789.-•) ')`. -/
def enumeratorChars : List Char := "0123456789.-•) ".data

/-- Embeds the line-based deduction parsing of
`ReasoningEngine._generate_deductions`: a line is a deduction candidate iff,
after stripping, it starts with a digit, `-` or `•`; the candidate is then
stripped of leading enumerators/punctuation and kept if non-empty. -/
def parse_deductions (result : String) : List String :=
  (splitLines result.data).filterMap (fun rawLine =>
    match pystrip rawLine with
    | [] => none
    | c :: rest =>
      if pyIsDigit c || c == '-' || c == '•' then
        let deduction := pystrip ((c :: rest).dropWhile (fun ch => enumeratorChars.contains ch))
        if deduction.isEmpty then none else some (String.mk deduction)
      else none)

/-! ## `ReasoningEngine.analyze_case` (reasoning_engine.py lines 79-185)

The external provider is modelled as two oracle arguments: the per-article
completion (`article_oracle`) and the completion answering the deduction
prompt (`deduction_completion`).  The prompt templates live in
`config/prompts.py`, which is not part of the sampled source; the oracle
abstraction makes the result independent of the exact prompt text.  The
`articles` argument is the ranked list produced by the knowledge base. -/

/-- Embeds `ReasoningEngine.analyze_case`. -/
def analyze_case (entities : CaseEntities) (case_id : String)
    (articles : List Article)
    (article_oracle : Article → Option String)
    (deduction_completion : Option String) : Option ReasoningResult :=
  if articles.isEmpty then none
  else
    let factSteps := entities.key_facts.map (fun fact =>
      { step_type := "FACT", content := fact, confidence := 1,
        related_article := none : ReasoningStep })
    let analyses := articles.filterMap (fun article =>
      (article_oracle article).map (fun analysis_text =>
        { article_number := article.article_number
          analysis_text := analysis_text
          confidence := extract_confidence analysis_text : ArticleAnalysis }))
    let articleSteps := analyses.map (fun a =>
      { step_type := "ARTICLE", content := a.analysis_text,
        confidence := a.confidence,
        related_article := some a.article_number : ReasoningStep })
    let deductions := match deduction_completion with
      | none => []
      | some result => parse_deductions result
    let deductionSteps := deductions.map (fun d =>
      { step_type := "DEDUCTION", content := d, confidence := 8/10,
        related_article := none : ReasoningStep })
    let reasoning_steps := factSteps ++ articleSteps ++ deductionSteps
    let article_confidences :=
      (reasoning_steps.filter (fun s => s.step_type == "ARTICLE")).map (·.confidence)
    let overall_confidence :=
      if article_confidences.isEmpty then 1/2
      else article_confidences.sum / (article_confidences.length : ℚ)
    some { case_id := case_id, entities := entities, retrieved_articles := articles,
           reasoning_steps := reasoning_steps, deductions := deductions,
           overall_confidence := overall_confidence }

/-- Confidences of the ARTICLE steps of a result (the list averaged by
`analyze_case`, source line 170). -/
def article_confidences (r : ReasoningResult) : List ℚ :=
  (r.reasoning_steps.filter (fun s => s.step_type == "ARTICLE")).map ReasoningStep.confidence

/-- A lower bound on every element bounds the sum from below. -/
theorem list_mul_le_sum (l : List ℚ) (a : ℚ) (h : ∀ x ∈ l, a ≤ x) :
    a * l.length ≤ l.sum := by
  induction l with
  | nil => simp
  | cons x xs ih =>
    have hx := h x (List.mem_cons_self x xs)
    have hxs := ih (fun y hy => h y (List.mem_cons_of_mem x hy))
    simp only [List.length_cons, List.sum_cons]
    push_cast
    rw [mul_add, mul_one]
    linarith

/-- An upper bound on every element bounds the sum from above. -/
theorem list_sum_le_mul (l : List ℚ) (b : ℚ) (h : ∀ x ∈ l, x ≤ b) :
    l.sum ≤ b * l.length := by
  induction l with
  | nil => simp
  | cons x xs ih =>
    have hx := h x (List.mem_cons_self x xs)
    have hxs := ih (fun y hy => h y (List.mem_cons_of_mem x hy))
    simp only [List.length_cons, List.sum_cons]
    push_cast
    rw [mul_add, mul_one]
    linarith

/-- The arithmetic mean of a non-empty list lies between any uniform bounds. -/
theorem mean_bounds (l : List ℚ) (a b : ℚ) (hne : l ≠ [])
    (hlo : ∀ x ∈ l, a ≤ x) (hhi : ∀ x ∈ l, x ≤ b) :
    a ≤ l.sum / (l.length : ℚ) ∧ l.sum / (l.length : ℚ) ≤ b := by
  have hpos : (0:ℚ) < (l.length : ℚ) := by
    exact_mod_cast List.length_pos.mpr hne
  constructor
  · rw [le_div_iff₀ hpos]
    exact list_mul_le_sum l a hlo
  · rw [div_le_iff₀ hpos]
    have := list_sum_le_mul l b hhi
    linarith

/-- `_extract_confidence` only ever returns one of the five fixed scores. -/
theorem extract_confidence_mem_range (t : String) :
    extract_confidence t ∈ ([30/100, 60/100, 70/100, 80/100, 95/100] : List ℚ) := by
  unfold extract_confidence
  split_ifs <;> simp

/-- Numeric range of `_extract_confidence`. -/
theorem extract_confidence_bounds (t : String) :
    3/10 ≤ extract_confidence t ∧ extract_confidence t ≤ 19/20 := by
  unfold extract_confidence
  split_ifs <;> norm_num

/-- C4: in every result assembled by `analyze_case`, `overall_confidence` is
the arithmetic mean of the confidences of the ARTICLE steps, and is exactly
0.5 when there are no ARTICLE steps (no division by zero occurs). -/
theorem overall_confidence_mean (entities : CaseEntities) (case_id : String)
    (articles : List Article) (article_oracle : Article → Option String)
    (deduction_completion : Option String) (r : ReasoningResult)
    (h : analyze_case entities case_id articles article_oracle deduction_completion = some r) :
    (article_confidences r = [] → r.overall_confidence = 1/2) ∧
    (article_confidences r ≠ [] →
      r.overall_confidence =
        (article_confidences r).sum / ((article_confidences r).length : ℚ)) := by
  unfold analyze_case at h
  split at h
  · exact absurd h (by simp)
  · rw [Option.some_inj] at h
    subst h
    unfold article_confidences
    constructor
    · intro hnil
      simp only [hnil, List.isEmpty_nil, if_true]
    · intro hne
      simp only [← List.isEmpty_iff, Bool.not_eq_true] at hne
      simp only [List.isEmpty_iff] at hne ⊢
      rw [if_neg hne]

/-- Each of the five fixed scores lies in `[0.30, 0.95]`. -/
theorem range_mem_bounds (x : ℚ)
    (hx : x ∈ ([30/100, 60/100, 70/100, 80/100, 95/100] : List ℚ)) :
    3/10 ≤ x ∧ x ≤ 19/20 := by
  simp only [List.mem_cons, List.not_mem_nil, or_false] at hx
  rcases hx with h|h|h|h|h <;> subst h <;> norm_num

/-- C10: every FACT step of a successful analysis has confidence exactly 1.0,
every DEDUCTION step exactly 0.8, every ARTICLE step one of the five fixed
scores, and consequently `overall_confidence` always lies in `[0.30, 0.95]`. -/
theorem confidence_invariants (entities : CaseEntities) (case_id : String)
    (articles : List Article) (article_oracle : Article → Option String)
    (deduction_completion : Option String) (r : ReasoningResult)
    (h : analyze_case entities case_id articles article_oracle deduction_completion = some r) :
    (∀ s ∈ r.reasoning_steps,
      (s.step_type = "FACT" → s.confidence = 1) ∧
      (s.step_type = "DEDUCTION" → s.confidence = 8/10) ∧
      (s.step_type = "ARTICLE" →
        s.confidence ∈ ([30/100, 60/100, 70/100, 80/100, 95/100] : List ℚ))) ∧
    3/10 ≤ r.overall_confidence ∧ r.overall_confidence ≤ 19/20 := by
  unfold analyze_case at h
  split at h
  · exact absurd h (by simp)
  · rw [Option.some_inj] at h
    subst h
    constructor
    · intro s hs
      simp only [List.mem_append, List.mem_map, List.mem_filterMap,
        Option.map_eq_some'] at hs
      rcases hs with (⟨f, hf, rfl⟩ | ⟨a, ⟨art, hart, t, ht, rfl⟩, rfl⟩) | ⟨d, hd, rfl⟩
      · refine ⟨fun _ => rfl, fun hc => ?_, fun hc => ?_⟩ <;> simp at hc
      · refine ⟨fun hc => ?_, fun hc => ?_, fun _ => ?_⟩
        · simp at hc
        · simp at hc
        · exact extract_confidence_mem_range t
      · refine ⟨fun hc => ?_, fun _ => rfl, fun hc => ?_⟩ <;> simp at hc
    · dsimp only
      split
      · constructor <;> norm_num
      · rename_i hne
        refine mean_bounds _ (3/10) (19/20) (by simpa [List.isEmpty_iff] using hne) ?_ ?_
        · intro x hx
          simp only [List.mem_map, List.mem_filter] at hx
          obtain ⟨s, ⟨hmem, htype⟩, rfl⟩ := hx
          simp only [List.mem_append, List.mem_map, List.mem_filterMap,
            Option.map_eq_some'] at hmem
          rcases hmem with (⟨f, hf, rfl⟩ | ⟨a, ⟨art, hart, t, ht, rfl⟩, rfl⟩) | ⟨d, hd, rfl⟩
          · simp at htype
          · exact (range_mem_bounds _ (extract_confidence_mem_range t)).1
          · simp at htype
        · intro x hx
          simp only [List.mem_map, List.mem_filter] at hx
          obtain ⟨s, ⟨hmem, htype⟩, rfl⟩ := hx
          simp only [List.mem_append, List.mem_map, List.mem_filterMap,
            Option.map_eq_some'] at hmem
          rcases hmem with (⟨f, hf, rfl⟩ | ⟨a, ⟨art, hart, t, ht, rfl⟩, rfl⟩) | ⟨d, hd, rfl⟩
          · simp at htype
          · exact (range_mem_bounds _ (extract_confidence_mem_range t)).2
          · simp at htype

/-! ## Concrete fixtures used to instantiate the theorems -/

/-- A concrete corpus entry (article 308 of the Civil Code corpus). -/
def testArticle : Article :=
  { article_number := 308, title := "غصب", text := "غصب استیلا بر حق غیر است",
    keywords := ["غصب"], interpretation_notes := "",
    related_articles := [309] }

/-- Concrete extracted entities with one key fact. -/
def testEntities : CaseEntities :=
  { plaintiff := none, defendant := none, key_facts := ["تصرف ملک"] }

/-- The result of a concrete one-article analysis run whose provider response
is marker-free. -/
def c4res : ReasoningResult :=
  (analyze_case testEntities "CASE-001" [testArticle] (fun _ => some "متن") none).getD
    { case_id := "", entities := testEntities, retrieved_articles := [],
      reasoning_steps := [], deductions := [], overall_confidence := 0 }

/-- C4 witness: the mean rule instantiated on the concrete one-article run. -/
theorem overall_confidence_mean_witness :
    analyze_case testEntities "CASE-001" [testArticle] (fun _ => some "متن") none = some c4res ∧
    article_confidences c4res ≠ [] ∧
    c4res.overall_confidence =
      (article_confidences c4res).sum / ((article_confidences c4res).length : ℚ) := by
  have h : analyze_case testEntities "CASE-001" [testArticle] (fun _ => some "متن") none
      = some c4res := rfl
  have hne : article_confidences c4res ≠ [] := by decide
  exact ⟨h, hne, (overall_confidence_mean _ _ _ _ _ _ h).2 hne⟩

/-- C10 witness: the confidence bounds instantiated on the concrete run. -/
theorem confidence_invariants_witness :
    3/10 ≤ c4res.overall_confidence ∧ c4res.overall_confidence ≤ 19/20 :=
  (confidence_invariants testEntities "CASE-001" [testArticle]
    (fun _ => some "متن") none c4res rfl).2

/-! ## Reasoning graph builder (graph_builder/reasoning_graph.py)

`_create_node_id` returns the string `node_type + "_" + str(counter)` for a
counter that is incremented before every node; since the four type names
contain no underscore the string is injective in the counter, so the node id
is modelled by the counter value itself. -/

/-- A node of the reasoning graph. -/
structure GraphNode where
  node_id : Nat
  node_type : String
  text : String
  confidence : ℚ
  size : Nat
deriving Repr, DecidableEq

/-- A directed edge of the reasoning graph. -/
structure GraphEdge where
  source : Nat
  target : Nat
  relationship : String
deriving Repr, DecidableEq

/-- Embeds `ReasoningGraph._add_fact_nodes` on the pre-filtered FACT steps:
returns the nodes, their ids, and the advanced counter. -/
def add_fact_nodes : List ReasoningStep → Nat → List GraphNode × List Nat × Nat
  | [], c => ([], [], c)
  | s :: rest, c =>
    let node : GraphNode :=
      { node_id := c+1, node_type := "FACT", text := s.content,
        confidence := s.confidence, size := 20 }
    let r := add_fact_nodes rest (c+1)
    (node :: r.1, (c+1) :: r.2.1, r.2.2)

/-- Embeds `ReasoningGraph._add_article_nodes` on the pre-filtered ARTICLE
steps: each article node is connected from every fact node. -/
def add_article_nodes :
    List ReasoningStep → List Nat → Nat →
    List GraphNode × List GraphEdge × List Nat × Nat
  | [], _, c => ([], [], [], c)
  | s :: rest, fact_ids, c =>
    let node : GraphNode :=
      { node_id := c+1, node_type := "ARTICLE", text := s.content,
        confidence := s.confidence, size := 30 }
    let edges := fact_ids.map (fun f =>
      { source := f, target := c+1, relationship := "تطبیق با" : GraphEdge })
    let r := add_article_nodes rest fact_ids (c+1)
    (node :: r.1, edges ++ r.2.1, (c+1) :: r.2.2.1, r.2.2.2)

/-- Embeds `ReasoningGraph._add_deduction_nodes`: one node per deduction
string, each connected from every article node, fixed confidence 0.8. -/
def add_deduction_nodes :
    List String → List Nat → Nat →
    List GraphNode × List GraphEdge × List Nat × Nat
  | [], _, c => ([], [], [], c)
  | d :: rest, article_ids, c =>
    let node : GraphNode :=
      { node_id := c+1, node_type := "DEDUCTION", text := d,
        confidence := 8/10, size := 25 }
    let edges := article_ids.map (fun a =>
      { source := a, target := c+1, relationship := "منجر به" : GraphEdge })
    let r := add_deduction_nodes rest article_ids (c+1)
    (node :: r.1, edges ++ r.2.1, (c+1) :: r.2.2.1, r.2.2.2)

/-- Embeds `ReasoningGraph._add_verdict_node`: exactly one VERDICT node,
connected from every deduction node.  (The Persian node text interpolates the
overall confidence; only the label constant is kept here.) -/
def add_verdict_node (r : ReasoningResult) (deduction_ids : List Nat) (c : Nat) :
    GraphNode × List GraphEdge × Nat :=
  let node : GraphNode :=
    { node_id := c+1, node_type := "VERDICT", text := "حکم نهایی",
      confidence := r.overall_confidence, size := 35 }
  let edges := deduction_ids.map (fun d =>
    { source := d, target := c+1, relationship := "منتهی به" : GraphEdge })
  (node, edges, c+1)

/-- Embeds `ReasoningGraph.build_from_reasoning`: the full node and edge set
of the layered reasoning graph. -/
def build_from_reasoning (r : ReasoningResult) : List GraphNode × List GraphEdge :=
  let f := add_fact_nodes (r.reasoning_steps.filter (fun s => s.step_type == "FACT")) 0
  let a := add_article_nodes (r.reasoning_steps.filter (fun s => s.step_type == "ARTICLE"))
    f.2.1 f.2.2
  let d := add_deduction_nodes r.deductions a.2.2.1 a.2.2.2
  let v := add_verdict_node r d.2.2.1 d.2.2.2
  (f.1 ++ (a.1 ++ (d.1 ++ [v.1])), a.2.1 ++ (d.2.1 ++ v.2.1))

/-- Node type of a node id, looked up in the node list (the `node_type`
attribute stored by `add_node`). -/
def node_type_of (nodes : List GraphNode) (id : Nat) : Option String :=
  (nodes.find? (fun n => n.node_id == id)).map GraphNode.node_type

/-- Node ids, types, id list and final counter of `add_fact_nodes`. -/
theorem add_fact_nodes_spec (steps : List ReasoningStep) (c : Nat) :
    (add_fact_nodes steps c).1.map GraphNode.node_id = List.range' (c+1) steps.length ∧
    (∀ n ∈ (add_fact_nodes steps c).1, n.node_type = "FACT") ∧
    (add_fact_nodes steps c).2.1 = List.range' (c+1) steps.length ∧
    (add_fact_nodes steps c).2.2 = c + steps.length := by
  induction steps generalizing c with
  | nil => simp [add_fact_nodes]
  | cons s rest ih =>
    obtain ⟨ih1, ih2, ih3, ih4⟩ := ih (c+1)
    refine ⟨?_, ?_, ?_, ?_⟩
    · simpa [add_fact_nodes, List.range'_succ, Nat.add_assoc] using ih1
    · intro n hn
      simp only [add_fact_nodes, List.mem_cons] at hn
      rcases hn with rfl | hn
      · rfl
      · exact ih2 n hn
    · simpa [add_fact_nodes, List.range'_succ, Nat.add_assoc] using ih3
    · simp only [add_fact_nodes, List.length_cons, ih4]
      omega

/-- Node ids, types, edge count, edge endpoints and edge distinctness of
`add_article_nodes`. -/
theorem add_article_nodes_spec (steps : List ReasoningStep) (fact_ids : List Nat) (c : Nat) :
    (add_article_nodes steps fact_ids c).1.map GraphNode.node_id
      = List.range' (c+1) steps.length ∧
    (∀ n ∈ (add_article_nodes steps fact_ids c).1, n.node_type = "ARTICLE") ∧
    (add_article_nodes steps fact_ids c).2.2.1 = List.range' (c+1) steps.length ∧
    (add_article_nodes steps fact_ids c).2.2.2 = c + steps.length ∧
    (add_article_nodes steps fact_ids c).2.1.length = steps.length * fact_ids.length ∧
    (∀ e ∈ (add_article_nodes steps fact_ids c).2.1,
      e.source ∈ fact_ids ∧ e.target ∈ List.range' (c+1) steps.length) ∧
    (fact_ids.Nodup → (add_article_nodes steps fact_ids c).2.1.Nodup) := by
  induction steps generalizing c with
  | nil => simp [add_article_nodes]
  | cons s rest ih =>
    obtain ⟨ih1, ih2, ih3, ih4, ih5, ih6, ih7⟩ := ih (c+1)
    refine ⟨?_, ?_, ?_, ?_, ?_, ?_, ?_⟩
    · simpa [add_article_nodes, List.range'_succ, Nat.add_assoc] using ih1
    · intro n hn
      simp only [add_article_nodes, List.mem_cons] at hn
      rcases hn with rfl | hn
      · rfl
      · exact ih2 n hn
    · simpa [add_article_nodes, List.range'_succ, Nat.add_assoc] using ih3
    · simp only [add_article_nodes, List.length_cons, ih4]
      omega
    · simp only [add_article_nodes, List.length_append, List.length_map, ih5,
        List.length_cons]
      ring
    · intro e he
      simp only [add_article_nodes, List.mem_append, List.mem_map] at he
      rcases he with ⟨f, hf, rfl⟩ | he
      · refine ⟨hf, ?_⟩
        dsimp only
        simp only [List.mem_range'_1, List.length_cons]
        omega
      · obtain ⟨hs, ht⟩ := ih6 e he
        refine ⟨hs, ?_⟩
        simp only [List.mem_range'_1, List.length_cons] at ht ⊢
        omega
    · intro hnd
      simp only [add_article_nodes]
      refine List.Nodup.append ?_ (ih7 hnd) ?_
      · refine List.Nodup.map ?_ hnd
        intro x y hxy
        simpa using congrArg GraphEdge.source hxy
      · rw [List.disjoint_left]
        intro e he hrec
        simp only [List.mem_map] at he
        obtain ⟨f, hf, rfl⟩ := he
        obtain ⟨hs, ht⟩ := ih6 _ hrec
        simp only [List.mem_range'_1] at ht
        omega

/-- Node ids, types, edge count, edge endpoints and edge distinctness of
`add_deduction_nodes`. -/
theorem add_deduction_nodes_spec (ds : List String) (article_ids : List Nat) (c : Nat) :
    (add_deduction_nodes ds article_ids c).1.map GraphNode.node_id
      = List.range' (c+1) ds.length ∧
    (∀ n ∈ (add_deduction_nodes ds article_ids c).1, n.node_type = "DEDUCTION") ∧
    (add_deduction_nodes ds article_ids c).2.2.1 = List.range' (c+1) ds.length ∧
    (add_deduction_nodes ds article_ids c).2.2.2 = c + ds.length ∧
    (add_deduction_nodes ds article_ids c).2.1.length = ds.length * article_ids.length ∧
    (∀ e ∈ (add_deduction_nodes ds article_ids c).2.1,
      e.source ∈ article_ids ∧ e.target ∈ List.range' (c+1) ds.length) ∧
    (article_ids.Nodup → (add_deduction_nodes ds article_ids c).2.1.Nodup) := by
  induction ds generalizing c with
  | nil => simp [add_deduction_nodes]
  | cons d rest ih =>
    obtain ⟨ih1, ih2, ih3, ih4, ih5, ih6, ih7⟩ := ih (c+1)
    refine ⟨?_, ?_, ?_, ?_, ?_, ?_, ?_⟩
    · simpa [add_deduction_nodes, List.range'_succ, Nat.add_assoc] using ih1
    · intro n hn
      simp only [add_deduction_nodes, List.mem_cons] at hn
      rcases hn with rfl | hn
      · rfl
      · exact ih2 n hn
    · simpa [add_deduction_nodes, List.range'_succ, Nat.add_assoc] using ih3
    · simp only [add_deduction_nodes, List.length_cons, ih4]
      omega
    · simp only [add_deduction_nodes, List.length_append, List.length_map, ih5,
        List.length_cons]
      ring
    · intro e he
      simp only [add_deduction_nodes, List.mem_append, List.mem_map] at he
      rcases he with ⟨a, ha, rfl⟩ | he
      · refine ⟨ha, ?_⟩
        dsimp only
        simp only [List.mem_range'_1, List.length_cons]
        omega
      · obtain ⟨hs, ht⟩ := ih6 e he
        refine ⟨hs, ?_⟩
        simp only [List.mem_range'_1, List.length_cons] at ht ⊢
        omega
    · intro hnd
      simp only [add_deduction_nodes]
      refine List.Nodup.append ?_ (ih7 hnd) ?_
      · refine List.Nodup.map ?_ hnd
        intro x y hxy
        simpa using congrArg GraphEdge.source hxy
      · rw [List.disjoint_left]
        intro e he hrec
        simp only [List.mem_map] at he
        obtain ⟨a, ha, rfl⟩ := he
        obtain ⟨hs, ht⟩ := ih6 _ hrec
        simp only [List.mem_range'_1] at ht
        omega

/-- Lookup stays in the left node block when the id occurs there. -/
theorem node_type_of_append_left (l1 l2 : List GraphNode) (id : Nat)
    (h : id ∈ l1.map GraphNode.node_id) :
    node_type_of (l1 ++ l2) id = node_type_of l1 id := by
  unfold node_type_of
  rw [List.find?_append]
  have hsome : (l1.find? (fun m => m.node_id == id)).isSome := by
    rw [List.find?_isSome]
    obtain ⟨n, hn, hid⟩ := List.mem_map.mp h
    exact ⟨n, hn, by simp [hid]⟩
  obtain ⟨m, hm⟩ := Option.isSome_iff_exists.mp hsome
  rw [hm]
  rfl

/-- Lookup skips a node block containing no node with the id. -/
theorem node_type_of_append_right (l1 l2 : List GraphNode) (id : Nat)
    (h : ∀ n ∈ l1, n.node_id ≠ id) :
    node_type_of (l1 ++ l2) id = node_type_of l2 id := by
  unfold node_type_of
  rw [List.find?_append]
  have hnone : l1.find? (fun m => m.node_id == id) = none := by
    rw [List.find?_eq_none]
    intro x hx
    simpa using h x hx
  rw [hnone]
  rfl

/-- In a block of uniformly typed nodes, lookup of a present id returns that
type. -/
theorem node_type_of_uniform (nodes : List GraphNode) (ty : String) (id : Nat)
    (hid : id ∈ nodes.map GraphNode.node_id)
    (hty : ∀ n ∈ nodes, n.node_type = ty) :
    node_type_of nodes id = some ty := by
  unfold node_type_of
  have hsome : (nodes.find? (fun m => m.node_id == id)).isSome := by
    rw [List.find?_isSome]
    obtain ⟨n, hn, hid'⟩ := List.mem_map.mp hid
    exact ⟨n, hn, by simp [hid']⟩
  obtain ⟨m, hm⟩ := Option.isSome_iff_exists.mp hsome
  rw [hm]
  simp [hty m (List.mem_of_find?_eq_some hm)]

/-- Ids of a block whose ids form `range' s n` avoid any id outside the
interval. -/
theorem block_id_ne (l : List GraphNode) (s n : Nat)
    (hl : l.map GraphNode.node_id = List.range' s n) (id : Nat)
    (hout : id < s ∨ s + n ≤ id) : ∀ m ∈ l, m.node_id ≠ id := by
  intro m hm
  have : m.node_id ∈ List.range' s n := hl ▸ List.mem_map_of_mem GraphNode.node_id hm
  rw [List.mem_range'_1] at this
  omega

/-- C1: for a result with at least one FACT step, one ARTICLE step and one
deduction, the built graph has exactly one VERDICT node; every edge goes from
a FACT node to an ARTICLE node, from an ARTICLE node to a DEDUCTION node, or
from a DEDUCTION node to the VERDICT node (strictly 4-layered, no back- or
skip-edges and — since every edge strictly increases the node id — acyclic);
the edges are pairwise distinct and their total count is
`facts*articles + articles*deductions + deductions*1`. -/
theorem build_from_reasoning_layered (r : ReasoningResult)
    (hF : 1 ≤ (r.reasoning_steps.filter (fun s => s.step_type == "FACT")).length)
    (hA : 1 ≤ (r.reasoning_steps.filter (fun s => s.step_type == "ARTICLE")).length)
    (hD : 1 ≤ r.deductions.length) :
    ((build_from_reasoning r).1.filter (fun n => n.node_type == "VERDICT")).length = 1 ∧
    (∀ e ∈ (build_from_reasoning r).2,
      (node_type_of (build_from_reasoning r).1 e.source = some "FACT" ∧
       node_type_of (build_from_reasoning r).1 e.target = some "ARTICLE") ∨
      (node_type_of (build_from_reasoning r).1 e.source = some "ARTICLE" ∧
       node_type_of (build_from_reasoning r).1 e.target = some "DEDUCTION") ∨
      (node_type_of (build_from_reasoning r).1 e.source = some "DEDUCTION" ∧
       node_type_of (build_from_reasoning r).1 e.target = some "VERDICT")) ∧
    (∀ e ∈ (build_from_reasoning r).2, e.source < e.target) ∧
    (build_from_reasoning r).2.Nodup ∧
    (build_from_reasoning r).2.length =
      (r.reasoning_steps.filter (fun s => s.step_type == "FACT")).length *
        (r.reasoning_steps.filter (fun s => s.step_type == "ARTICLE")).length +
      (r.reasoning_steps.filter (fun s => s.step_type == "ARTICLE")).length *
        r.deductions.length +
      r.deductions.length * 1 := by
  simp only [build_from_reasoning]
  set Fs := r.reasoning_steps.filter (fun s => s.step_type == "FACT") with hFsdef
  set As := r.reasoning_steps.filter (fun s => s.step_type == "ARTICLE") with hAsdef
  obtain ⟨f1, f2, f3, f4⟩ := add_fact_nodes_spec Fs 0
  obtain ⟨a1, a2, a3, a4, a5, a6, a7⟩ :=
    add_article_nodes_spec As (add_fact_nodes Fs 0).2.1 (add_fact_nodes Fs 0).2.2
  obtain ⟨d1, d2, d3, d4, d5, d6, d7⟩ :=
    add_deduction_nodes_spec r.deductions
      (add_article_nodes As (add_fact_nodes Fs 0).2.1 (add_fact_nodes Fs 0).2.2).2.2.1
      (add_article_nodes As (add_fact_nodes Fs 0).2.1 (add_fact_nodes Fs 0).2.2).2.2.2
  set f := add_fact_nodes Fs 0 with hfdef
  set a := add_article_nodes As f.2.1 f.2.2 with hadef
  set d := add_deduction_nodes r.deductions a.2.2.1 a.2.2.2 with hddef
  set v := add_verdict_node r d.2.2.1 d.2.2.2 with hvdef
  rw [f4] at a1 a3 a4 a6
  simp only [Nat.zero_add] at a1 a3 a4 a6
  rw [a4] at d1 d3 d4 d6
  rw [f3] at a5 a6 a7
  simp only [List.length_range'] at a5
  rw [a3] at d5 d6 d7
  simp only [List.length_range'] at d5
  have hvnode : v.1 = GraphNode.mk (d.2.2.2 + 1) "VERDICT" "حکم نهایی"
      r.overall_confidence 35 := rfl
  have hvedges : v.2.1 = d.2.2.1.map (fun dd =>
      GraphEdge.mk dd (d.2.2.2 + 1) "منتهی به") := rfl
  rw [d4] at hvnode hvedges
  rw [d3] at hvedges
  -- uniform lookups in the concatenated node list
  have lookF : ∀ id ∈ List.range' 1 Fs.length,
      node_type_of (f.1 ++ (a.1 ++ (d.1 ++ [v.1]))) id = some "FACT" := by
    intro id hid
    rw [node_type_of_append_left _ _ _ (by rw [f1]; exact hid)]
    exact node_type_of_uniform _ _ _ (by rw [f1]; exact hid) f2
  have lookA : ∀ id ∈ List.range' (Fs.length + 1) As.length,
      node_type_of (f.1 ++ (a.1 ++ (d.1 ++ [v.1]))) id = some "ARTICLE" := by
    intro id hid
    have hb := List.mem_range'_1.mp hid
    rw [node_type_of_append_right _ _ _ (block_id_ne f.1 1 Fs.length f1 id (by omega))]
    rw [node_type_of_append_left _ _ _ (by rw [a1]; exact hid)]
    exact node_type_of_uniform _ _ _ (by rw [a1]; exact hid) a2
  have lookD : ∀ id ∈ List.range' (Fs.length + As.length + 1) r.deductions.length,
      node_type_of (f.1 ++ (a.1 ++ (d.1 ++ [v.1]))) id = some "DEDUCTION" := by
    intro id hid
    have hb := List.mem_range'_1.mp hid
    rw [node_type_of_append_right _ _ _ (block_id_ne f.1 1 Fs.length f1 id (by omega))]
    rw [node_type_of_append_right _ _ _
      (block_id_ne a.1 (Fs.length + 1) As.length a1 id (by omega))]
    rw [node_type_of_append_left _ _ _ (by rw [d1]; exact hid)]
    exact node_type_of_uniform _ _ _ (by rw [d1]; exact hid) d2
  have lookV :
      node_type_of (f.1 ++ (a.1 ++ (d.1 ++ [v.1])))
        (Fs.length + As.length + r.deductions.length + 1) = some "VERDICT" := by
    rw [node_type_of_append_right _ _ _ (block_id_ne f.1 1 Fs.length f1 _ (by omega))]
    rw [node_type_of_append_right _ _ _
      (block_id_ne a.1 (Fs.length + 1) As.length a1 _ (by omega))]
    rw [node_type_of_append_right _ _ _
      (block_id_ne d.1 (Fs.length + As.length + 1) r.deductions.length d1 _ (by omega))]
    unfold node_type_of
    rw [hvnode]
    simp
  refine ⟨?_, ?_, ?_, ?_, ?_⟩
  · -- exactly one VERDICT node
    have hfF : f.1.filter (fun n => n.node_type == "VERDICT") = [] := by
      rw [List.filter_eq_nil_iff]
      intro n hn
      simp [f2 n hn]
    have hfA : a.1.filter (fun n => n.node_type == "VERDICT") = [] := by
      rw [List.filter_eq_nil_iff]
      intro n hn
      simp [a2 n hn]
    have hfD : d.1.filter (fun n => n.node_type == "VERDICT") = [] := by
      rw [List.filter_eq_nil_iff]
      intro n hn
      simp [d2 n hn]
    simp [List.filter_append, hfF, hfA, hfD, hvnode]
  · -- edge typing
    intro e he
    simp only [List.mem_append] at he
    rcases he with hea | hed | hev
    · obtain ⟨hsrc, htgt⟩ := a6 e hea
      exact Or.inl ⟨lookF _ hsrc, lookA _ htgt⟩
    · obtain ⟨hsrc, htgt⟩ := d6 e hed
      exact Or.inr (Or.inl ⟨lookA _ hsrc, lookD _ htgt⟩)
    · rw [hvedges] at hev
      simp only [List.mem_map] at hev
      obtain ⟨dd, hdd, rfl⟩ := hev
      refine Or.inr (Or.inr ⟨lookD _ hdd, ?_⟩)
      simpa using lookV
  · -- every edge strictly increases the id
    intro e he
    simp only [List.mem_append] at he
    rcases he with hea | hed | hev
    · obtain ⟨hsrc, htgt⟩ := a6 e hea
      rw [List.mem_range'_1] at hsrc htgt
      omega
    · obtain ⟨hsrc, htgt⟩ := d6 e hed
      rw [List.mem_range'_1] at hsrc htgt
      omega
    · rw [hvedges] at hev
      simp only [List.mem_map] at hev
      obtain ⟨dd, hdd, rfl⟩ := hev
      rw [List.mem_range'_1] at hdd
      dsimp only
      omega
  · -- edges are pairwise distinct
    have ndA : a.2.1.Nodup := a7 (List.nodup_range' _ _)
    have ndD : d.2.1.Nodup := d7 (List.nodup_range' _ _)
    have ndV : v.2.1.Nodup := by
      rw [hvedges]
      refine List.Nodup.map ?_ (List.nodup_range' _ _)
      intro x y hxy
      simpa using congrArg GraphEdge.source hxy
    refine List.Nodup.append ndA (List.Nodup.append ndD ndV ?_) ?_
    · rw [List.disjoint_left]
      intro e hed hev
      obtain ⟨hsrc, htgt⟩ := d6 e hed
      rw [List.mem_range'_1] at htgt
      rw [hvedges] at hev
      simp only [List.mem_map] at hev
      obtain ⟨dd, hdd, he⟩ := hev
      subst he
      dsimp only at htgt
      omega
    · rw [List.disjoint_left]
      intro e hea hedv
      obtain ⟨hsrc, htgt⟩ := a6 e hea
      rw [List.mem_range'_1] at htgt
      rcases List.mem_append.mp hedv with hed | hev
      · obtain ⟨hsrc2, htgt2⟩ := d6 e hed
        rw [List.mem_range'_1] at htgt2
        omega
      · rw [hvedges] at hev
        simp only [List.mem_map] at hev
        obtain ⟨dd, hdd, he⟩ := hev
        subst he
        dsimp only at htgt
        omega
  · -- edge count
    simp only [List.length_append]
    rw [a5, d5, hvedges]
    simp only [List.length_map, List.length_range']
    ring

/-- The result of a concrete run that also produces one deduction. -/
def c1res : ReasoningResult :=
  (analyze_case testEntities "CASE-002" [testArticle] (fun _ => some "متن")
    (some "- نتیجه")).getD
    { case_id := "", entities := testEntities, retrieved_articles := [],
      reasoning_steps := [], deductions := [], overall_confidence := 0 }

/-- C1 witness: the graph invariants instantiated on a concrete
one-fact, one-article, one-deduction result. -/
theorem build_from_reasoning_layered_witness :
    ((build_from_reasoning c1res).1.filter (fun n => n.node_type == "VERDICT")).length = 1 ∧
    (build_from_reasoning c1res).2.length = 1 * 1 + 1 * 1 + 1 * 1 := by
  obtain ⟨h1, _, _, _, h5⟩ :=
    build_from_reasoning_layered c1res (by decide) (by decide) (by decide)
  refine ⟨h1, ?_⟩
  rw [h5]
  decide

/-! ## Verdict generator (verdict_generator.py lines 136-225) -/

/-- Header synonyms for `summary` (source line 154). -/
def summary_headers : List String := ["خلاصه پرونده", "خلاصه"]

/-- Header synonyms for `proven_facts` (source line 155). -/
def proven_facts_headers : List String := ["واقعیات اثبات شده", "واقعیات"]

/-- Header synonyms for `legal_analysis` (source line 156). -/
def legal_analysis_headers : List String := ["تحلیل حقوقی", "استدلال حقوقی"]

/-- Header synonyms for `ruling` (source line 157). -/
def ruling_headers : List String := ["حکم", "رأی"]

/-- Header synonyms for `implementation` (source line 158). -/
def implementation_headers : List String := ["جزئیات اجرایی", "اجرا"]

/-- Header synonyms for `appealable` (source line 159). -/
def appealable_headers : List String := ["قابل اعتراض", "اعتراض"]

/-- All section-header synonyms used by `_parse_verdict`. -/
def all_section_headers : List String :=
  summary_headers ++ proven_facts_headers ++ legal_analysis_headers ++
    ruling_headers ++ implementation_headers ++ appealable_headers

/-- The section-stop markers of `_extract_section` (source line 217). -/
def section_stop_markers : List String := ["##", "**", "۱.", "۲.", "۳.", "۴.", "۵."]

/-- `line_stripped.startswith(('##', '**', ...))`. -/
def startsWithMarker (l : List Char) : Bool :=
  section_stop_markers.any (fun m => m.data.isPrefixOf l)

/-- The line loop of `VerdictGenerator._extract_section`: `capturing` starts
false; a line containing a header turns capturing on and is skipped; a
captured non-empty line starting with a stop marker (and not itself a header)
breaks the loop; other captured non-empty stripped lines are accumulated. -/
def extract_section_go (headers : List String) :
    List (List Char) → Bool → List (List Char) → List (List Char)
  | [], _, acc => acc.reverse
  | line :: rest, capturing, acc =>
    let ls := pystrip line
    if headers.any (fun h => containsSub ls h) then
      extract_section_go headers rest true acc
    else if capturing && !ls.isEmpty && startsWithMarker ls then
      acc.reverse
    else if capturing && !ls.isEmpty then
      extract_section_go headers rest capturing (ls :: acc)
    else
      extract_section_go headers rest capturing acc

/-- Embeds `VerdictGenerator._extract_section`:
`'\x5cn'.join(section_lines).strip()`. -/
def extract_section (text : String) (headers : List String) : String :=
  String.mk (pystrip (List.intercalate ['\n']
    (extract_section_go headers (splitLines text.data) false [])))

/-- Structured verdict document (`Verdict`). -/
structure Verdict where
  case_id : String
  summary : String
  proven_facts : String
  legal_analysis : String
  ruling : String
  implementation : String
  appealable : String
  confidence : ℚ
deriving Repr, DecidableEq

/-- The fixed statutory appeal-window notice (source lines 170 and 180). -/
def appeal_default : String := "این رأی ظرف ۲۰ روز قابل اعتراض است"

/-- Embeds `VerdictGenerator._parse_verdict`: section extraction with the
all-sections-empty fallback and the appealable default. -/
def parse_verdict (verdict_text : String) (case_id : String) (confidence : ℚ) : Verdict :=
  let summary := extract_section verdict_text summary_headers
  let proven_facts := extract_section verdict_text proven_facts_headers
  let legal_analysis := extract_section verdict_text legal_analysis_headers
  let ruling := extract_section verdict_text ruling_headers
  let implementation := extract_section verdict_text implementation_headers
  let appealable := extract_section verdict_text appealable_headers
  if summary = "" ∧ proven_facts = "" ∧ legal_analysis = "" ∧ ruling = "" ∧
      implementation = "" ∧ appealable = "" then
    { case_id := case_id, summary := "خلاصه در متن حکم ذکر شده است",
      proven_facts := "واقعیات در متن حکم ذکر شده است",
      legal_analysis := verdict_text,
      ruling := "حکم در متن ذکر شده است",
      implementation := "طبق مفاد حکم",
      appealable := appeal_default, confidence := confidence }
  else
    { case_id := case_id, summary := summary, proven_facts := proven_facts,
      legal_analysis := legal_analysis, ruling := ruling,
      implementation := implementation,
      appealable := if appealable = "" then appeal_default else appealable,
      confidence := confidence }

/-- The first line of `splitLines` is a prefix of the text; the later lines
are infixes. -/
theorem splitLines_spec (cs : List Char) :
    ∃ first rest, splitLines cs = first :: rest ∧ first <+: cs ∧
      ∀ l ∈ rest, l <:+: cs := by
  induction cs with
  | nil => exact ⟨[], [], rfl, List.nil_prefix, by simp⟩
  | cons c cs ih =>
    obtain ⟨first, rest, hsplit, hpre, hrest⟩ := ih
    by_cases hc : c = '\n'
    · refine ⟨[], splitLines cs, by simp [splitLines, hc], List.nil_prefix, ?_⟩
      intro l hl
      rw [hsplit] at hl
      rcases List.mem_cons.mp hl with rfl | hl
      · exact hpre.isInfix.trans (List.infix_cons List.infix_rfl)
      · exact (hrest l hl).trans (List.infix_cons List.infix_rfl)
    · refine ⟨c :: first, rest, ?_, ?_, ?_⟩
      · simp [splitLines, hc, hsplit]
      · exact List.cons_prefix_cons.mpr ⟨rfl, hpre⟩
      · intro l hl
        exact (hrest l hl).trans (List.infix_cons List.infix_rfl)

/-- Every line produced by `splitLines` is an infix of the text. -/
theorem splitLines_within (cs : List Char) : ∀ l ∈ splitLines cs, l <:+: cs := by
  obtain ⟨first, rest, hsplit, hpre, hrest⟩ := splitLines_spec cs
  intro l hl
  rw [hsplit] at hl
  rcases List.mem_cons.mp hl with rfl | hl
  · exact hpre.isInfix
  · exact hrest l hl

/-- Stripping only removes characters: the result is an infix. -/
theorem pystrip_within (l : List Char) : pystrip l <:+: l := by
  unfold pystrip
  have h1 : l.dropWhile pyIsSpace <:+ l := List.dropWhile_suffix pyIsSpace
  have h2 : ((l.dropWhile pyIsSpace).reverse.dropWhile pyIsSpace).reverse
      <+: l.dropWhile pyIsSpace := by
    rw [← List.reverse_suffix]
    simpa using List.dropWhile_suffix (l := (l.dropWhile pyIsSpace).reverse) pyIsSpace
  exact h2.isInfix.trans h1.isInfix

/-- If no line contains a header, the extraction loop never starts capturing
and returns only its accumulator. -/
theorem extract_section_go_no_header (headers : List String)
    (lines : List (List Char)) (acc : List (List Char))
    (h : ∀ line ∈ lines, (headers.any (fun hd => containsSub (pystrip line) hd)) = false) :
    extract_section_go headers lines false acc = acc.reverse := by
  induction lines generalizing acc with
  | nil => rfl
  | cons line rest ih =>
    have hline := h line (List.mem_cons_self line rest)
    show extract_section_go headers (line :: rest) false acc = acc.reverse
    unfold extract_section_go
    rw [if_neg (by simp [hline]), if_neg (by simp), if_neg (by simp)]
    exact ih acc (fun l hl => h l (List.mem_cons_of_mem line hl))

/-- If no header synonym occurs anywhere in the text, its section extraction
is empty. -/
theorem extract_section_empty (text : String) (headers : List String)
    (hsub : ∀ hd ∈ headers, ¬ (hd.data <:+: text.data)) :
    extract_section text headers = "" := by
  unfold extract_section
  rw [extract_section_go_no_header]
  · rfl
  · intro line hline
    rw [List.any_eq_false]
    intro hd hhd
    have hni : ¬ (hd.data <:+: pystrip line) := fun hinf =>
      hsub hd hhd
        (hinf.trans ((pystrip_within line).trans (splitLines_within text.data line hline)))
    simp [containsSub, hni]

/-- C5: if no section-header synonym occurs anywhere in the raw verdict text,
the parsed verdict has `legal_analysis` equal to the entire raw text verbatim
and every other section equal to non-empty placeholder text (with `appealable`
the fixed statutory appeal-window notice); and whenever the appealable
extraction yields nothing, the appealable section defaults to that notice. -/
theorem parse_verdict_fallback (verdict_text case_id : String) (confidence : ℚ)
    (hno : ∀ h ∈ all_section_headers, ¬ (h.data <:+: verdict_text.data)) :
    ((parse_verdict verdict_text case_id confidence).legal_analysis = verdict_text ∧
     (parse_verdict verdict_text case_id confidence).summary ≠ "" ∧
     (parse_verdict verdict_text case_id confidence).proven_facts ≠ "" ∧
     (parse_verdict verdict_text case_id confidence).ruling ≠ "" ∧
     (parse_verdict verdict_text case_id confidence).implementation ≠ "" ∧
     (parse_verdict verdict_text case_id confidence).appealable = appeal_default ∧
     appeal_default ≠ "") ∧
    (∀ (t : String) (c : ℚ), extract_section t appealable_headers = "" →
      (parse_verdict t case_id c).appealable = appeal_default) := by
  constructor
  · have m1 : ∀ hd ∈ summary_headers, hd ∈ all_section_headers := by decide
    have m2 : ∀ hd ∈ proven_facts_headers, hd ∈ all_section_headers := by decide
    have m3 : ∀ hd ∈ legal_analysis_headers, hd ∈ all_section_headers := by decide
    have m4 : ∀ hd ∈ ruling_headers, hd ∈ all_section_headers := by decide
    have m5 : ∀ hd ∈ implementation_headers, hd ∈ all_section_headers := by decide
    have m6 : ∀ hd ∈ appealable_headers, hd ∈ all_section_headers := by decide
    have e1 := extract_section_empty verdict_text summary_headers
      (fun hd hhd => hno hd (m1 hd hhd))
    have e2 := extract_section_empty verdict_text proven_facts_headers
      (fun hd hhd => hno hd (m2 hd hhd))
    have e3 := extract_section_empty verdict_text legal_analysis_headers
      (fun hd hhd => hno hd (m3 hd hhd))
    have e4 := extract_section_empty verdict_text ruling_headers
      (fun hd hhd => hno hd (m4 hd hhd))
    have e5 := extract_section_empty verdict_text implementation_headers
      (fun hd hhd => hno hd (m5 hd hhd))
    have e6 := extract_section_empty verdict_text appealable_headers
      (fun hd hhd => hno hd (m6 hd hhd))
    have hpv : parse_verdict verdict_text case_id confidence =
        Verdict.mk case_id "خلاصه در متن حکم ذکر شده است"
          "واقعیات در متن حکم ذکر شده است" verdict_text "حکم در متن ذکر شده است"
          "طبق مفاد حکم" appeal_default confidence := by
      unfold parse_verdict
      rw [e1, e2, e3, e4, e5, e6]
      simp
    rw [hpv]
    refine ⟨rfl, ?_, ?_, ?_, ?_, rfl, ?_⟩
    · show "خلاصه در متن حکم ذکر شده است" ≠ ""
      decide
    · show "واقعیات در متن حکم ذکر شده است" ≠ ""
      decide
    · show "حکم در متن ذکر شده است" ≠ ""
      decide
    · show "طبق مفاد حکم" ≠ ""
      decide
    · show appeal_default ≠ ""
      decide
  · intro t c hempty
    unfold parse_verdict
    rw [hempty]
    dsimp only
    split
    · rfl
    · simp

/-- C5 witness: a header-free concrete text falls back as claimed. -/
theorem parse_verdict_fallback_witness :
    (parse_verdict "متن آزاد" "CASE-001" (1/2)).legal_analysis = "متن آزاد" ∧
    (parse_verdict "متن آزاد" "CASE-001" (1/2)).summary ≠ "" ∧
    (parse_verdict "متن آزاد" "CASE-001" (1/2)).appealable = appeal_default := by
  obtain ⟨⟨h1, h2, _, _, _, h6, _⟩, _⟩ :=
    parse_verdict_fallback "متن آزاد" "CASE-001" (1/2) (by decide)
  exact ⟨h1, h2, h6⟩

/-! ## Knowledge base retrieval (knowledge_base.py lines 139-270) -/

/-- Substring test on two character lists (Python `needle in hay`). -/
def containsSubL (hay needle : List Char) : Bool :=
  decide (needle <:+: hay)

/-- A corpus entry paired with its embedding vector: `self.articles[i]` and
row `i` of the FAISS index store. -/
structure KBEntry where
  article : Article
  embedding : List ℚ
deriving Repr, DecidableEq, Inhabited

/-- Scored retrieval result: the article dict annotated with
`relevance_score` and `similarity`. -/
structure ScoredArticle where
  article : Article
  relevance_score : ℚ
  similarity : ℚ
deriving Repr, DecidableEq

/-- Squared Euclidean distance, the metric of `faiss.IndexFlatL2`. -/
def sqL2 (x y : List ℚ) : ℚ :=
  ((x.zip y).map (fun p => (p.1 - p.2) ^ 2)).sum

/-- Stable insertion: `x` goes after every earlier element that strictly
precedes it (`keep y x = true` iff `y` must stay before `x`). -/
def insertBy (keep : α → α → Bool) (x : α) : List α → List α
  | [] => [x]
  | y :: ys => if keep y x then y :: insertBy keep x ys else x :: y :: ys

/-- Stable sort by repeated insertion; models Python's stable `list.sort`. -/
def sortBy (keep : α → α → Bool) (l : List α) : List α :=
  l.foldr (insertBy keep) []

theorem mem_insertBy (keep : α → α → Bool) (x : α) (l : List α) (z : α) :
    z ∈ insertBy keep x l ↔ z = x ∨ z ∈ l := by
  induction l with
  | nil => simp [insertBy]
  | cons y ys ih =>
    simp only [insertBy]
    split <;> simp only [List.mem_cons, ih] <;> tauto

theorem mem_sortBy (keep : α → α → Bool) (l : List α) (z : α) :
    z ∈ sortBy keep l ↔ z ∈ l := by
  induction l with
  | nil => simp [sortBy]
  | cons y ys ih =>
    simp only [sortBy, List.foldr_cons, mem_insertBy]
    simp only [sortBy] at ih
    simp [ih]

/-- Models `faiss.IndexFlatL2.search`: the `top_k` nearest stored rows by
squared L2 distance, ties kept in corpus order (stable).  When `top_k`
exceeds the corpus size only the real rows are returned; the library instead
pads with sentinel entries, a case the deployed corpus (20 articles, default
`top_k = 5`) never reaches. -/
def faiss_search (embeddings : List (List ℚ)) (query_vector : List ℚ)
    (top_k : Nat) : List (ℚ × Nat) :=
  (sortBy (fun p q => decide (p.1 < q.1))
    ((List.range embeddings.length).map
      (fun i => (sqL2 query_vector (embeddings.getD i []), i)))).take top_k

/-- Embeds `LegalKnowledgeBase._keyword_match_score`: the fraction of the
article's keywords occurring (lower-cased) inside the lower-cased query. -/
def keyword_match_score (query : String) (article : Article) : ℚ :=
  if article.keywords = [] then 0
  else ((article.keywords.countP
      (fun kw => containsSubL (pyLower query.data) (pyLower kw.data))) : ℚ) /
    (article.keywords.length : ℚ)

/-- Embeds `LegalKnowledgeBase.retrieve_relevant_articles`.  `top_k` and
`similarity_threshold` follow Python's `x or default` semantics: `None` and
the falsy number `0` both fall back to the settings defaults
`TOP_K_ARTICLES = 5` and `SIMILARITY_THRESHOLD = 0.7`.  A `none` query
embedding models an embedding-provider failure (empty result). -/
def retrieve_relevant_articles (kb : List KBEntry) (query : String)
    (query_embedding : Option (List ℚ)) (top_k : Option Nat)
    (similarity_threshold : Option ℚ) (use_hybrid : Bool) : List ScoredArticle :=
  let top_k' := match top_k with
    | none => 5
    | some k => if k = 0 then 5 else k
  let threshold := match similarity_threshold with
    | none => 7/10
    | some t => if t = 0 then 7/10 else t
  match query_embedding with
  | none => []
  | some qv =>
    let search_results := faiss_search (kb.map KBEntry.embedding) qv top_k'
    let results := search_results.filterMap (fun di =>
      let article := (kb.map KBEntry.article).getD di.2 default
      let similarity : ℚ := 1 / (1 + di.1)
      let final_score :=
        if use_hybrid then
          7/10 * similarity + 3/10 * keyword_match_score query article
        else similarity
      if final_score ≥ threshold then
        some { article := article, relevance_score := final_score,
               similarity := similarity }
      else none)
    sortBy (fun x y => decide (x.relevance_score > y.relevance_score)) results

/-- Embeds `LegalKnowledgeBase.get_article_by_number`: first corpus article
with the given number, if any. -/
def get_article_by_number (articles : List Article) (article_num : Int) :
    Option Article :=
  articles.find? (fun a => a.article_number == article_num)

/-- `getD` through a `map`, inside bounds. -/
theorem getD_map_kb {β : Type} (kb : List KBEntry) (f : KBEntry → β)
    (i : Nat) (h : i < kb.length) (d : β) :
    (kb.map f).getD i d = f (kb.getD i default) := by
  have h' : i < (kb.map f).length := by simpa using h
  rw [List.getD_eq_getElem?_getD, List.getElem?_map, List.getElem?_eq_getElem h,
    List.getD_eq_getElem?_getD, List.getElem?_eq_getElem h]
  rfl

/-- Every (distance, index) pair returned by the modelled FAISS search refers
to a real row and carries its true squared-L2 distance. -/
theorem faiss_search_spec (embeddings : List (List ℚ)) (qv : List ℚ)
    (top_k : Nat) (di : ℚ × Nat)
    (hdi : di ∈ faiss_search embeddings qv top_k) :
    di.2 < embeddings.length ∧ di.1 = sqL2 qv (embeddings.getD di.2 []) := by
  unfold faiss_search at hdi
  have hmem := List.take_subset _ _ hdi
  rw [mem_sortBy, List.mem_map] at hmem
  obtain ⟨i, hi, heq⟩ := hmem
  rw [List.mem_range] at hi
  subst heq
  exact ⟨hi, rfl⟩

/-- From `(if c then some a else none) = some x` conclude `x = a`. -/
theorem ite_some_eq {α : Type} {c : Prop} [Decidable c] {a x : α}
    (h : (if c then some a else none) = some x) : x = a := by
  split at h
  · exact (Option.some_inj.mp h).symm
  · exact absurd h (by simp)

/-- C3: every provision scored by the dense retrieval backend has
`similarity = 1 / (1 + d)` where `d` is the squared-Euclidean distance
between the query embedding and the provision's stored embedding, and with
hybrid fusion enabled its final score is
`0.7 * similarity + 0.3 * keyword_match_score`; the keyword score of a
provision without keywords is 0. -/
theorem retrieve_scores (kb : List KBEntry) (query : String) (qv : List ℚ)
    (top_k : Option Nat) (threshold : Option ℚ) (x : ScoredArticle)
    (hx : x ∈ retrieve_relevant_articles kb query (some qv) top_k threshold true) :
    (∃ i, i < kb.length ∧
      x.article = (kb.getD i default).article ∧
      x.similarity = 1 / (1 + sqL2 qv (kb.getD i default).embedding) ∧
      x.relevance_score =
        7/10 * x.similarity + 3/10 * keyword_match_score query x.article) ∧
    (∀ a : Article, a.keywords = [] → keyword_match_score query a = 0) := by
  constructor
  · simp only [retrieve_relevant_articles] at hx
    rw [mem_sortBy] at hx
    rw [List.mem_filterMap] at hx
    obtain ⟨di, hdi, hf⟩ := hx
    obtain ⟨hlt, hdist⟩ := faiss_search_spec _ _ _ _ hdi
    rw [List.length_map] at hlt
    refine ⟨di.2, hlt, ?_⟩
    have hx' := ite_some_eq hf
    subst hx'
    dsimp only
    rw [getD_map_kb kb KBEntry.article di.2 hlt, hdist,
        getD_map_kb kb KBEntry.embedding di.2 hlt]
    exact ⟨rfl, rfl, rfl⟩
  · intro a ha
    unfold keyword_match_score
    rw [if_pos ha]

/-- One-article corpus fixture with embedding `[0]`. -/
def kbFixture : List KBEntry := [{ article := testArticle, embedding := [0] }]

/-- The keyword score of the fixture article against a query containing its
single keyword is exactly 1. -/
theorem keyword_match_score_fixture : keyword_match_score "غصب ملک" testArticle = 1 := by
  unfold keyword_match_score
  rw [show testArticle.keywords = ["غصب"] from rfl]
  rw [if_neg (by decide)]
  rw [show (["غصب"].countP
    (fun kw => containsSubL (pyLower "غصب ملک".data) (pyLower kw.data))) = 1 from by decide]
  norm_num

/-- C3 witness: on the one-article corpus whose embedding equals the query
embedding, the returned entry carries similarity 1 and fused score
`0.7*1 + 0.3*1 = 1`, as given by the score formulas. -/
theorem retrieve_scores_witness :
    ScoredArticle.mk testArticle 1 1 ∈
      retrieve_relevant_articles kbFixture "غصب ملک" (some [0]) none none true ∧
    (1 : ℚ) = 1 / (1 + sqL2 [0] ((kbFixture.getD 0 default).embedding)) ∧
    (1 : ℚ) = 7/10 * 1 + 3/10 * keyword_match_score "غصب ملک" testArticle := by
  have hsearch : faiss_search (kbFixture.map KBEntry.embedding) [0] 5 = [((0:ℚ), 0)] := by
    norm_num [faiss_search, kbFixture, sortBy, insertBy, sqL2, List.range_succ]
  have hone : retrieve_relevant_articles kbFixture "غصب ملک" (some [0]) none none true
      = [ScoredArticle.mk testArticle 1 1] := by
    simp only [retrieve_relevant_articles, hsearch]
    norm_num [List.filterMap_cons, kbFixture, keyword_match_score_fixture, sortBy, insertBy]
  have hx : ScoredArticle.mk testArticle 1 1 ∈
      retrieve_relevant_articles kbFixture "غصب ملک" (some [0]) none none true := by
    rw [hone]
    exact List.mem_singleton_self _
  obtain ⟨⟨i, hi, ha, hs, hr⟩, hnk⟩ :=
    retrieve_scores kbFixture "غصب ملک" [0] none none _ hx
  have hi0 : i = 0 := by
    simp only [kbFixture, List.length_cons, List.length_nil] at hi
    omega
  subst hi0
  refine ⟨hx, ?_, ?_⟩
  · simpa using hs
  · rw [keyword_match_score_fixture]
    norm_num

/-- From `(if c then some a else none) = some x` and `c → d` conclude the
same for `d`. -/
theorem ite_some_mono {α : Type} {c d : Prop} [Decidable c] [Decidable d]
    {a x : α} (himp : c → d) (h : (if c then some a else none) = some x) :
    (if d then some a else none) = some x := by
  split at h
  · rw [if_pos (himp (by assumption))]
    exact h
  · exact absurd h (by simp)

/-- Concrete evaluation: the fixture corpus queried with embedding `[1]` at
threshold 1/2 (no hybrid) returns exactly the article scored 1/2. -/
theorem retrieve_fixture_half :
    retrieve_relevant_articles kbFixture "دعوا" (some [1]) (some 5) (some (1/2)) false
      = [ScoredArticle.mk testArticle (1/2) (1/2)] := by
  have hs : faiss_search [[(0:ℚ)]] [1] 5 = [((1:ℚ), 0)] := by
    norm_num [faiss_search, sortBy, insertBy, sqL2, List.range_succ]
  norm_num [retrieve_relevant_articles, kbFixture, hs, List.filterMap_cons,
    sortBy, insertBy]

/-- Concrete evaluation: the same query at the passed threshold 0.0 returns
nothing, because the falsy 0.0 is silently replaced by the default 0.7. -/
theorem retrieve_fixture_zero :
    retrieve_relevant_articles kbFixture "دعوا" (some [1]) (some 5) (some 0) false
      = [] := by
  have hs : faiss_search [[(0:ℚ)]] [1] 5 = [((1:ℚ), 0)] := by
    norm_num [faiss_search, sortBy, insertBy, sqL2, List.range_succ]
  norm_num [retrieve_relevant_articles, kbFixture, hs, List.filterMap_cons,
    sortBy, insertBy]

/-- C6 counterexample: for the threshold pair t1 = 0 < t2 = 1/2 the t2-result
is NOT a subset of the t1-result — the claim as stated fails.  Passing a 0.0
threshold trips Python's `similarity_threshold or SIMILARITY_THRESHOLD`
defaulting, which silently raises the effective threshold to 0.7, so an
article scoring 1/2 survives at t2 = 1/2 but is dropped at t1 = 0. -/
theorem retrieve_threshold_monotone_counterexample :
    (0:ℚ) < 1/2 ∧
    ScoredArticle.mk testArticle (1/2) (1/2) ∈
      retrieve_relevant_articles kbFixture "دعوا" (some [1]) (some 5) (some (1/2)) false ∧
    ScoredArticle.mk testArticle (1/2) (1/2) ∉
      retrieve_relevant_articles kbFixture "دعوا" (some [1]) (some 5) (some 0) false := by
  refine ⟨by norm_num, ?_, ?_⟩
  · rw [retrieve_fixture_half]
    exact List.mem_singleton_self _
  · rw [retrieve_fixture_zero]
    simp

/-- C6 amended: threshold filtering is monotone for every pair `t1 < t2` with
`t1 ≠ 0`: given the same query embedding, every provision retrieved at
threshold `t2` is also retrieved at threshold `t1`.  (Excluding `t1 = 0` is
forced by the `or`-defaulting shown in the counterexample; a zero threshold
is silently replaced by the default 0.7.) -/
theorem retrieve_threshold_monotone (kb : List KBEntry) (query : String)
    (qe : Option (List ℚ)) (top_k : Option Nat) (t1 t2 : ℚ) (hybrid : Bool)
    (h12 : t1 < t2) (h1 : t1 ≠ 0) (x : ScoredArticle)
    (hx : x ∈ retrieve_relevant_articles kb query qe top_k (some t2) hybrid) :
    x ∈ retrieve_relevant_articles kb query qe top_k (some t1) hybrid := by
  cases qe with
  | none => simp [retrieve_relevant_articles] at hx
  | some qv =>
    simp only [retrieve_relevant_articles] at hx ⊢
    rw [mem_sortBy] at hx ⊢
    rw [List.mem_filterMap] at hx ⊢
    obtain ⟨di, hdi, hf⟩ := hx
    refine ⟨di, hdi, ?_⟩
    dsimp only at hf ⊢
    refine ite_some_mono ?_ hf
    intro hc
    rw [if_neg h1]
    by_cases ht2 : t2 = 0
    · rw [if_pos ht2] at hc
      have ht1 : t1 < 0 := ht2 ▸ h12
      linarith
    · rw [if_neg ht2] at hc
      linarith

/-- C6 witness: the amended monotonicity applied to the concrete pair
`t1 = 2/5 < t2 = 1/2` on the fixture corpus. -/
theorem retrieve_threshold_monotone_witness :
    ScoredArticle.mk testArticle (1/2) (1/2) ∈
      retrieve_relevant_articles kbFixture "دعوا" (some [1]) (some 5) (some (2/5)) false := by
  refine retrieve_threshold_monotone kbFixture "دعوا" (some [1]) (some 5) (2/5) (1/2)
    false (by norm_num) (by norm_num) _ ?_
  rw [retrieve_fixture_half]
  exact List.mem_singleton_self _

/-! ## Related-articles traversal (knowledge_base.py lines 231-270) -/

/-- Every number the BFS can ever insert into its visited set, apart from the
start number: corpus article numbers and members of `related_articles`
lists.  Used only as a termination measure. -/
def bfsUniverse (articles : List Article) : Finset Int :=
  (articles.map Article.article_number).toFinset ∪
    (articles.bind Article.related_articles).toFinset

/-- Embeds the `while queue:` loop of
`LegalKnowledgeBase.get_related_articles`: pop from the front, skip visited
or too-deep entries, record the found article (except the start), and enqueue
unvisited related numbers while below the depth bound. -/
def bfs_loop (articles : List Article) (startNum : Int) (depth : Nat) :
    List (Int × Nat) → Finset Int → List Article
  | [], _ => []
  | (current, d) :: rest, visited =>
    if hv : current ∈ visited ∨ depth < d then
      bfs_loop articles startNum depth rest visited
    else
      match hart : get_article_by_number articles current with
      | none => bfs_loop articles startNum depth rest (insert current visited)
      | some a =>
        (if current ≠ startNum then [a] else []) ++
          bfs_loop articles startNum depth
            (rest ++ (if d < depth then
              (a.related_articles.filter
                (fun rnum => rnum ∉ insert current visited)).map
                (fun rnum => (rnum, d+1))
              else []))
            (insert current visited)
termination_by queue visited => ((bfsUniverse articles \ visited).card, queue.length)
decreasing_by
  · exact Prod.Lex.right _ (by simp)
  · push_neg at hv
    by_cases hu : current ∈ bfsUniverse articles
    · refine Prod.Lex.left _ _ ?_
      rw [Finset.sdiff_insert]
      exact Finset.card_erase_lt_of_mem (Finset.mem_sdiff.mpr ⟨hu, hv.1⟩)
    · rw [show bfsUniverse articles \ insert current visited
          = bfsUniverse articles \ visited from by
        rw [Finset.sdiff_insert, Finset.erase_eq_of_not_mem]
        intro hmem
        exact hu (Finset.mem_sdiff.mp hmem).1]
      exact Prod.Lex.right _ (by simp)
  · push_neg at hv
    refine Prod.Lex.left _ _ ?_
    have hmem : a ∈ articles := List.mem_of_find?_eq_some hart
    have hnum : a.article_number = current := by
      have := List.find?_some hart
      simpa using this
    have hu : current ∈ bfsUniverse articles := by
      rw [← hnum]
      exact Finset.mem_union_left _ (by
        rw [List.mem_toFinset]
        exact List.mem_map_of_mem Article.article_number hmem)
    rw [Finset.sdiff_insert]
    exact Finset.card_erase_lt_of_mem (Finset.mem_sdiff.mpr ⟨hu, hv.1⟩)

/-- Embeds `LegalKnowledgeBase.get_related_articles`. -/
def get_related_articles (articles : List Article) (article_num : Int)
    (depth : Nat) : List Article :=
  bfs_loop articles article_num depth [(article_num, 0)] ∅

/-- Invariant of the BFS loop: results avoid the current visited set, never
carry the start number, and are pairwise distinct (by article number). -/
theorem bfs_loop_spec (articles : List Article) (startNum : Int) (depth : Nat)
    (queue : List (Int × Nat)) (visited : Finset Int) :
    (∀ a ∈ bfs_loop articles startNum depth queue visited,
      a.article_number ∉ visited ∧ a.article_number ≠ startNum) ∧
    ((bfs_loop articles startNum depth queue visited).map Article.article_number).Nodup := by
  induction queue, visited using bfs_loop.induct articles startNum depth with
  | case1 visited => simp [bfs_loop]
  | case2 current d rest visited hv ih =>
    rw [bfs_loop]
    rw [dif_pos hv]
    exact ih
  | case3 current d rest visited hv hart ih =>
    rw [bfs_loop]
    rw [dif_neg hv]
    rw [hart]
    exact ⟨fun a ha => ⟨fun hmem => (ih.1 a ha).1 (Finset.mem_insert_of_mem hmem),
      (ih.1 a ha).2⟩, ih.2⟩
  | case4 current d rest visited hv a hart ih =>
    rw [bfs_loop]
    rw [dif_neg hv]
    rw [hart]
    push_neg at hv
    have hnum : a.article_number = current := by
      have := List.find?_some hart
      simpa using this
    constructor
    · intro b hb
      rw [List.mem_append] at hb
      rcases hb with hb | hb
      · -- b is the freshly appended article (only when current ≠ startNum)
        have hcs : current ≠ startNum ∧ b = a := by
          by_cases hc : current ≠ startNum
          · rw [if_pos hc] at hb
            exact ⟨hc, by simpa using hb⟩
          · rw [if_neg hc] at hb
            exact absurd hb (by simp)
        obtain ⟨hc, rfl⟩ := hcs
        rw [hnum]
        exact ⟨hv.1, hc⟩
      · obtain ⟨hnv, hns⟩ := ih.1 b hb
        exact ⟨fun hmem => hnv (Finset.mem_insert_of_mem hmem), hns⟩
    · rw [List.map_append]
      refine List.Nodup.append ?_ ih.2 ?_
      · by_cases hc : current ≠ startNum
        · rw [if_pos hc]
          simp
        · rw [if_neg hc]
          simp
      · rw [List.disjoint_left]
        intro n hn hn2
        have hna : n = a.article_number := by
          by_cases hc : current ≠ startNum
          · rw [if_pos hc] at hn
            simpa using hn
          · rw [if_neg hc] at hn
            exact absurd hn (by simp)
        rw [List.mem_map] at hn2
        obtain ⟨b, hb, rfl⟩ := hn2
        have := (ih.1 b hb).1
        exact this (by
          rw [hna, hnum]
          exact Finset.mem_insert_self current visited)

/-- At depth 0 the traversal returns nothing: the start node is consumed
without being recorded and nothing is enqueued. -/
theorem get_related_articles_depth_zero (articles : List Article) (n : Int) :
    get_related_articles articles n 0 = [] := by
  unfold get_related_articles
  rw [bfs_loop]
  rw [dif_neg (by simp)]
  cases hfind : get_article_by_number articles n with
  | none =>
    simp only [hfind]
    rw [bfs_loop]
  | some a =>
    simp only [hfind]
    rw [if_neg (by simp), if_neg (by omega)]
    simp [bfs_loop]

/-- C7: the bounded breadth-first related-provision traversal is a total
function of this embedding (its termination measure is discharged once for
every corpus, cyclic `related_articles` adjacency included); at depth 0 it
returns the empty list; its result never contains the start article and never
contains the same article twice. -/
theorem get_related_articles_spec (articles : List Article) (article_num : Int)
    (depth : Nat) :
    (get_related_articles articles article_num 0 = []) ∧
    (∀ a ∈ get_related_articles articles article_num depth,
      a.article_number ≠ article_num) ∧
    (get_related_articles articles article_num depth).Nodup := by
  refine ⟨get_related_articles_depth_zero articles article_num, ?_, ?_⟩
  · intro a ha
    exact ((bfs_loop_spec articles article_num depth [(article_num, 0)] ∅).1 a ha).2
  · exact List.Nodup.of_map _
      (bfs_loop_spec articles article_num depth [(article_num, 0)] ∅).2

/-- Fixture article 1, related to article 2. -/
def relatedFixture1 : Article :=
  { article_number := 1, title := "الف", text := "متن الف", keywords := [],
    interpretation_notes := "", related_articles := [2] }

/-- Fixture article 2, related back to article 1 (a two-cycle). -/
def relatedFixture2 : Article :=
  { article_number := 2, title := "ب", text := "متن ب", keywords := [],
    interpretation_notes := "", related_articles := [1] }

/-- A two-article corpus whose `related_articles` adjacency is cyclic. -/
def relatedFixture : List Article := [relatedFixture1, relatedFixture2]

/-- On the cyclic fixture, depth-1 traversal from article 1 finds exactly
article 2. -/
theorem get_related_articles_fixture :
    get_related_articles relatedFixture 1 1 = [relatedFixture2] := by
  unfold get_related_articles
  rw [bfs_loop]
  rw [dif_neg (by simp)]
  rw [show get_article_by_number relatedFixture 1 = some relatedFixture1 from by
    simp [get_article_by_number, relatedFixture, relatedFixture1, List.find?]]
  dsimp only
  rw [if_neg (by simp), if_pos (by omega)]
  simp only [List.nil_append, show relatedFixture1.related_articles = [(2:ℤ)] from rfl]
  rw [show List.filter (fun rnum => decide (rnum ∉ insert (1:ℤ) (∅ : Finset ℤ))) [(2:ℤ)]
      = [(2:ℤ)] from by simp]
  simp only [List.map_cons, List.map_nil, Nat.zero_add]
  rw [bfs_loop]
  rw [dif_neg (by simp)]
  rw [show get_article_by_number relatedFixture 2 = some relatedFixture2 from by
    simp [get_article_by_number, relatedFixture, relatedFixture1, relatedFixture2,
      List.find?]]
  dsimp only
  rw [if_pos (by decide), if_neg (by omega)]
  simp [bfs_loop]

/-- C7 witness: the traversal invariants instantiated on the cyclic fixture:
article 2 is found once, the start article 1 is excluded, and depth 0 yields
nothing. -/
theorem get_related_articles_spec_witness :
    relatedFixture2 ∈ get_related_articles relatedFixture 1 1 ∧
    relatedFixture2.article_number ≠ 1 ∧
    get_related_articles relatedFixture 1 0 = [] := by
  have hmem : relatedFixture2 ∈ get_related_articles relatedFixture 1 1 := by
    rw [get_related_articles_fixture]
    exact List.mem_singleton_self _
  exact ⟨hmem, (get_related_articles_spec relatedFixture 1 1).2.1 _ hmem,
    (get_related_articles_spec relatedFixture 1 0).1⟩

/-! ## Retry discipline (base_client.py lines 138-174, openai_client.py lines 129-170)

Exceptions are data here: each attempted provider call has an outcome, and
the retry loops are total functions returning the final result together with
the list of sleep durations — "no exception escapes" is the totality of the
embedding. -/

/-- Outcome of one attempted provider call: success, a rate-limit signal
(whose message may indicate hard quota exhaustion), a generic API error, or
any other exception. -/
inductive CallOutcome where
  | success (text : String)
  | rateLimit (quota : Bool)
  | apiError
  | otherError
deriving Repr, DecidableEq

/-- Embeds `LLMClient._retry_with_backoff` from attempt number `attempt` with
ceiling `max_retries`: quota-exhaustion rate limits abort at once; plain rate
limits sleep `2**attempt + 1` and retry; API errors sleep `2**attempt` and
retry except on the last attempt; any other exception aborts.  Returns the
result and the sleeps performed. -/
def retry_with_backoff (behavior : Nat → CallOutcome) (max_retries : Nat) :
    Nat → Option String × List Nat
  | attempt =>
    if h : attempt < max_retries then
      match behavior attempt with
      | .success s => (some s, [])
      | .rateLimit quota =>
        if quota then (none, [])
        else
          let r := retry_with_backoff behavior max_retries (attempt + 1)
          (r.1, (2 ^ attempt + 1) :: r.2)
      | .apiError =>
        if attempt = max_retries - 1 then (none, [])
        else
          let r := retry_with_backoff behavior max_retries (attempt + 1)
          (r.1, 2 ^ attempt :: r.2)
      | .otherError => (none, [])
    else (none, [])
termination_by attempt => max_retries - attempt
decreasing_by omega

/-- Embeds the retry loop of `OpenAIClient.get_completion`: every rate-limit
signal — quota exhaustion included, since OpenAI raises it as the same
`RateLimitError` — sleeps `2**attempt` and retries; API errors and other
exceptions are handled as in the shared wrapper. -/
def openai_completion_retry (behavior : Nat → CallOutcome) (max_retries : Nat) :
    Nat → Option String × List Nat
  | attempt =>
    if h : attempt < max_retries then
      match behavior attempt with
      | .success s => (some s, [])
      | .rateLimit _ =>
        let r := openai_completion_retry behavior max_retries (attempt + 1)
        (r.1, 2 ^ attempt :: r.2)
      | .apiError =>
        if attempt = max_retries - 1 then (none, [])
        else
          let r := openai_completion_retry behavior max_retries (attempt + 1)
          (r.1, 2 ^ attempt :: r.2)
      | .otherError => (none, [])
    else (none, [])
termination_by attempt => max_retries - attempt
decreasing_by omega

/-- Backoff schedule of the shared wrapper under persistent plain rate
limiting: all attempts are used and the sleeps are `2^a + 1` for each
attempt `a`. -/
theorem retry_rl_schedule (behavior : Nat → CallOutcome)
    (hb : ∀ n, behavior n = CallOutcome.rateLimit false) (max_retries : Nat) :
    ∀ k attempt, max_retries - attempt = k →
      retry_with_backoff behavior max_retries attempt =
        (none, (List.range' attempt k).map (fun a => 2 ^ a + 1)) := by
  intro k
  induction k with
  | zero =>
    intro attempt hk
    rw [retry_with_backoff]
    rw [dif_neg (by omega)]
    simp
  | succ k ih =>
    intro attempt hk
    rw [retry_with_backoff]
    rw [dif_pos (by omega)]
    rw [hb attempt]
    rw [ih (attempt + 1) (by omega)]
    simp [List.range'_succ]

/-- Backoff schedule of the OpenAI completion path under persistent rate
limiting of any kind (quota flags are ignored): sleeps are `2^a`. -/
theorem openai_rl_schedule (behavior : Nat → CallOutcome) (qf : Nat → Bool)
    (hb : ∀ n, behavior n = CallOutcome.rateLimit (qf n)) (max_retries : Nat) :
    ∀ k attempt, max_retries - attempt = k →
      openai_completion_retry behavior max_retries attempt =
        (none, (List.range' attempt k).map (fun a => 2 ^ a)) := by
  intro k
  induction k with
  | zero =>
    intro attempt hk
    rw [openai_completion_retry]
    rw [dif_neg (by omega)]
    simp
  | succ k ih =>
    intro attempt hk
    rw [openai_completion_retry]
    rw [dif_pos (by omega)]
    rw [hb attempt]
    rw [ih (attempt + 1) (by omega)]
    simp [List.range'_succ]

/-- Backoff schedule of both paths under persistent generic API errors: the
last attempt does not sleep, the earlier ones sleep `2^a`. -/
theorem api_error_schedule (behavior : Nat → CallOutcome)
    (hb : ∀ n, behavior n = CallOutcome.apiError) (max_retries : Nat)
    (hpos : 1 ≤ max_retries) :
    ∀ k attempt, max_retries - 1 - attempt = k → attempt < max_retries →
      retry_with_backoff behavior max_retries attempt =
        (none, (List.range' attempt k).map (fun a => 2 ^ a)) ∧
      openai_completion_retry behavior max_retries attempt =
        (none, (List.range' attempt k).map (fun a => 2 ^ a)) := by
  intro k
  induction k with
  | zero =>
    intro attempt hk hlt
    rw [retry_with_backoff, openai_completion_retry]
    rw [dif_pos hlt, dif_pos hlt, hb attempt]
    rw [if_pos (by omega), if_pos (by omega)]
    simp
  | succ k ih =>
    intro attempt hk hlt
    obtain ⟨ih1, ih2⟩ := ih (attempt + 1) (by omega) (by omega)
    rw [retry_with_backoff, openai_completion_retry]
    rw [dif_pos hlt, dif_pos hlt, hb attempt]
    rw [if_neg (by omega), if_neg (by omega)]
    rw [ih1, ih2]
    simp [List.range'_succ]

/-- C8 counterexample: the claim fails on the OpenAI completion path.  A
rate-limit signal carrying hard quota exhaustion is retried through all three
attempts with waits `2**attempt` = 1, 2, 4 seconds — neither the claimed
immediate abort without retry, nor the claimed `2**attempt + 1` waits.  (The
shared wrapper, by contrast, aborts at once.) -/
theorem retry_quota_counterexample :
    openai_completion_retry (fun _ => CallOutcome.rateLimit true) 3 0
      = (none, [1, 2, 4]) ∧
    retry_with_backoff (fun _ => CallOutcome.rateLimit true) 3 0 = (none, []) ∧
    ([1, 2, 4] : List Nat) ≠ [] := by
  refine ⟨?_, ?_, by decide⟩
  · have := openai_rl_schedule (fun _ => CallOutcome.rateLimit true) (fun _ => true)
      (fun n => rfl) 3 3 0 (by omega)
    rw [this]
    norm_num [List.range'_succ]
  · rw [retry_with_backoff]
    rw [dif_pos (by omega)]
    rfl

/-- C8 amended: for every completion call, the shared `_retry_with_backoff`
wrapper behaves exactly as claimed — a quota-exhaustion rate limit is never
retried and immediately yields an absent result, plain rate limits wait
`2^attempt + 1` seconds with exponential backoff up to the fixed attempt
ceiling and then yield an absent result, generic API errors are retried with
`2^attempt` backoff up to the same ceiling and then yield an absent result,
and any other exception aborts immediately with an absent result; the OpenAI
completion path differs in exactly one point: every rate-limit signal, quota
exhaustion included, is retried with `2^attempt` waits.  Both loops are total
functions, so no exception escapes either call. -/
theorem retry_backoff_spec (behavior : Nat → CallOutcome) (max_retries : Nat)
    (hpos : 1 ≤ max_retries) :
    (∀ attempt, attempt < max_retries →
      behavior attempt = CallOutcome.rateLimit true →
      retry_with_backoff behavior max_retries attempt = (none, [])) ∧
    ((∀ n, behavior n = CallOutcome.rateLimit false) →
      retry_with_backoff behavior max_retries 0 =
        (none, (List.range max_retries).map (fun a => 2 ^ a + 1))) ∧
    (∀ qf : Nat → Bool, (∀ n, behavior n = CallOutcome.rateLimit (qf n)) →
      openai_completion_retry behavior max_retries 0 =
        (none, (List.range max_retries).map (fun a => 2 ^ a))) ∧
    ((∀ n, behavior n = CallOutcome.apiError) →
      retry_with_backoff behavior max_retries 0 =
        (none, (List.range (max_retries - 1)).map (fun a => 2 ^ a)) ∧
      openai_completion_retry behavior max_retries 0 =
        (none, (List.range (max_retries - 1)).map (fun a => 2 ^ a))) ∧
    (∀ attempt, attempt < max_retries →
      behavior attempt = CallOutcome.otherError →
      retry_with_backoff behavior max_retries attempt = (none, []) ∧
      openai_completion_retry behavior max_retries attempt = (none, [])) ∧
    (∀ attempt s, attempt < max_retries →
      behavior attempt = CallOutcome.success s →
      retry_with_backoff behavior max_retries attempt = (some s, []) ∧
      openai_completion_retry behavior max_retries attempt = (some s, [])) := by
  refine ⟨?_, ?_, ?_, ?_, ?_, ?_⟩
  · intro attempt hlt hq
    rw [retry_with_backoff, dif_pos hlt, hq]
    rfl
  · intro hb
    rw [retry_rl_schedule behavior hb max_retries max_retries 0 (by omega)]
    rw [List.range_eq_range']
  · intro qf hb
    rw [openai_rl_schedule behavior qf hb max_retries max_retries 0 (by omega)]
    rw [List.range_eq_range']
  · intro hb
    obtain ⟨h1, h2⟩ := api_error_schedule behavior hb max_retries hpos
      (max_retries - 1) 0 (by omega) (by omega)
    rw [h1, h2, List.range_eq_range']
    exact ⟨rfl, rfl⟩
  · intro attempt hlt ho
    rw [retry_with_backoff, dif_pos hlt, ho,
      openai_completion_retry, dif_pos hlt, ho]
    exact ⟨rfl, rfl⟩
  · intro attempt s hlt hs
    rw [retry_with_backoff, dif_pos hlt, hs,
      openai_completion_retry, dif_pos hlt, hs]
    exact ⟨rfl, rfl⟩

/-- C8 witness: the amended behaviour instantiated at ceiling 3 — the shared
wrapper waits 2, 3, 5 seconds under plain rate limiting, aborts at once on
attempt 0 under quota exhaustion, and a first-attempt success returns its
text with no wait. -/
theorem retry_backoff_spec_witness :
    retry_with_backoff (fun _ => CallOutcome.rateLimit false) 3 0
      = (none, [2, 3, 5]) ∧
    retry_with_backoff (fun _ => CallOutcome.rateLimit true) 3 0 = (none, []) ∧
    retry_with_backoff (fun _ => CallOutcome.success "متن") 3 0
      = (some "متن", []) := by
  refine ⟨?_, ?_, ?_⟩
  · rw [(retry_backoff_spec (fun _ => CallOutcome.rateLimit false) 3 (by omega)).2.1
      (fun n => rfl)]
    norm_num [List.range_succ]
  · exact (retry_backoff_spec (fun _ => CallOutcome.rateLimit true) 3 (by omega)).1
      0 (by omega) rfl
  · exact ((retry_backoff_spec (fun _ => CallOutcome.success "متن") 3 (by omega)).2.2.2.2.2
      0 "متن" (by omega) rfl).1

/-! ## Cache keys (base_client.py lines 103-109, openai_client.py lines 77-80)

The code hashes the key string with md5; the hash is modelled as the identity
on the key string.  Key equality is unaffected by this idealisation; key
inequality is exactly as strong as md5 collision-freedom.  Temperature and
max_tokens enter the f-string via their decimal formatting and are taken
here as already-formatted strings. -/

/-- Embeds `LLMClient._cache_key`'s key data
`f"{provider_name}_{model_name}_{prompt}_{temperature}_{max_tokens}"`. -/
def llm_cache_key (provider_name model_name prompt temperature max_tokens : String) :
    String :=
  provider_name ++ "_" ++ model_name ++ "_" ++ prompt ++ "_" ++ temperature ++
    "_" ++ max_tokens

/-- Embeds `OpenAIClient._cache_key`'s key data
`f"{prompt}_{temperature}_{max_tokens}"`: no provider, no model. -/
def openai_cache_key (prompt temperature max_tokens : String) : String :=
  prompt ++ "_" ++ temperature ++ "_" ++ max_tokens

/-- The standalone OpenAI client's state: its active model name
(`settings.OPENAI_MODEL`). -/
structure OpenAIClientState where
  model : String
deriving Repr, DecidableEq

/-- The cache key the standalone OpenAI client computes: its active model is
not consulted. -/
def OpenAIClientState.cache_key (_c : OpenAIClientState)
    (prompt temperature max_tokens : String) : String :=
  openai_cache_key prompt temperature max_tokens

/-- C9 counterexample: the claim fails on the standalone OpenAI client cited
by the spec — two completion requests with identical prompt, temperature and
max output length but different model identities produce the SAME cache key,
so switching models does not miss in that client's cache. -/
theorem cache_key_counterexample :
    (OpenAIClientState.mk "gpt-4-turbo-preview").cache_key "p" "0.3" "2000"
      = (OpenAIClientState.mk "gpt-3.5-turbo").cache_key "p" "0.3" "2000" ∧
    "gpt-4-turbo-preview" ≠ "gpt-3.5-turbo" := by
  exact ⟨rfl, by decide⟩

/-- C9 amended: the shared `LLMClient._cache_key` (used by the Gemini client)
does include provider and model identity: two requests with identical prompt,
temperature and max output length but a different provider (among the two
deployed providers "openai" and "gemini") or a different model produce
different keys, so after a provider or model switch the lookups tied to the
old identity miss; the standalone OpenAI client's key, by contrast, omits
both identities, so its keys coincide for every pair of model identities. -/
theorem llm_cache_key_separates (prov1 prov2 model1 model2 prompt temperature
    max_tokens : String)
    (hp1 : prov1 = "openai" ∨ prov1 = "gemini")
    (hp2 : prov2 = "openai" ∨ prov2 = "gemini")
    (hne : prov1 ≠ prov2 ∨ model1 ≠ model2) :
    llm_cache_key prov1 model1 prompt temperature max_tokens ≠
      llm_cache_key prov2 model2 prompt temperature max_tokens ∧
    ∀ c1 c2 : OpenAIClientState,
      c1.cache_key prompt temperature max_tokens
        = c2.cache_key prompt temperature max_tokens := by
  constructor
  · intro heq
    have hd := congrArg String.data heq
    simp only [llm_cache_key, String.data_append, List.append_assoc] at hd
    rcases hp1 with rfl | rfl <;> rcases hp2 with rfl | rfl
    · rcases hne with hne | hne
      · exact hne rfl
      · have h1 := List.append_cancel_left hd
        have h2 := List.append_cancel_left h1
        have h3 := List.append_cancel_right h2
        exact hne (String.ext h3)
    · rw [show ("openai".data : List Char) = ['o','p','e','n','a','i'] from rfl,
          show ("gemini".data : List Char) = ['g','e','m','i','n','i'] from rfl] at hd
      simp at hd
    · rw [show ("openai".data : List Char) = ['o','p','e','n','a','i'] from rfl,
          show ("gemini".data : List Char) = ['g','e','m','i','n','i'] from rfl] at hd
      simp at hd
    · rcases hne with hne | hne
      · exact hne rfl
      · have h1 := List.append_cancel_left hd
        have h2 := List.append_cancel_left h1
        have h3 := List.append_cancel_right h2
        exact hne (String.ext h3)
  · intro c1 c2
    rfl

/-- C9 witness: two models under the same provider get different shared-client
keys for the same prompt, temperature and max output length. -/
theorem llm_cache_key_separates_witness :
    llm_cache_key "openai" "gpt-4-turbo-preview" "p" "0.3" "2000" ≠
      llm_cache_key "openai" "gpt-3.5-turbo" "p" "0.3" "2000" :=
  (llm_cache_key_separates "openai" "openai" "gpt-4-turbo-preview" "gpt-3.5-turbo"
    "p" "0.3" "2000" (Or.inl rfl) (Or.inl rfl) (Or.inr (by decide))).1
